import Mathlib

/-!
Shallow embedding of the mcap-manager repository (query / merge / CLI topic
handling), translated from `src/mcap_manager/{utils,query,merge,mcap_utils,cli}.py`.

Conventions of the embedding:
* byte payloads and schema definition bytes are modelled as `String`;
* timestamps (nanoseconds) are `Nat`;
* the mcap writer is modelled by a stream of `WriterOp` values together with a
  `Registry` holding the session's schema/channel id maps and a fresh-id counter;
* Python `try/except` absorption is modelled by a `FileStatus` on each input
  file: an unreadable (or empty) file contributes no records, a file whose
  decoding fails after `k` records contributes exactly its first `k` records.
-/

namespace McapManager

/-- A schema as yielded by the mcap reader: name, encoding, definition bytes. -/
structure Schema where
  name : String
  encoding : String
  data : String
deriving DecidableEq, Repr

/-- A channel as yielded by the mcap reader. -/
structure Channel where
  topic : String
  message_encoding : String
  metadata : List (String × String)
deriving DecidableEq, Repr

/-- A message as yielded by the mcap reader. -/
structure Message where
  log_time : Nat
  publish_time : Nat
  data : String
deriving DecidableEq, Repr

/-- One record of an input file: the (schema, channel, message) triple. -/
structure Record where
  schema : Schema
  channel : Channel
  message : Message
deriving DecidableEq, Repr

/-- Python truthiness of an optional topic set (`None` and the empty set are falsy). -/
def optNonempty (o : Option (List String)) : Bool :=
  match o with
  | none => false
  | some l => !l.isEmpty

/-- Embedding of `utils.check_topic_filters`: admit the topic unless a
non-empty include set misses it or a non-empty exclude set contains it. -/
def checkTopicFilters (topic : String) (include_topics exclude_topics : Option (List String)) :
    Bool :=
  if optNonempty include_topics && !((include_topics.getD []).contains topic) then false
  else if optNonempty exclude_topics && (exclude_topics.getD []).contains topic then false
  else true

/-- Python list slice `l[i:]`: for a negative start the slice begins at
`max 0 (len + i)`, otherwise at `min len i`. -/
def pySliceFrom {α : Type} (i : Int) (l : List α) : List α :=
  if i < 0 then l.drop ((l.length : Int) + i).toNat else l.drop i.toNat

/-- One operation performed on the mcap writer, in call order. -/
inductive WriterOp where
  | regSchema (id : Nat) (name : String) (encoding : String) (data : String)
  | regChannel (id : Nat) (schemaId : Nat) (topic : String) (message_encoding : String)
      (metadata : List (String × String))
  | addMessage (channelId : Nat) (log_time : Nat) (data : String) (publish_time : Nat)
deriving DecidableEq, Repr

/-- Whether a writer operation is a message write. -/
def WriterOp.isAddMessage : WriterOp → Bool
  | .addMessage _ _ _ _ => true
  | _ => false

/-- The channel id of a message write (0 for registrations). -/
def WriterOp.msgChannelId : WriterOp → Nat
  | .addMessage c _ _ _ => c
  | _ => 0

/-- The log time of a message write (0 for registrations). -/
def WriterOp.msgLogTime : WriterOp → Nat
  | .addMessage _ t _ _ => t
  | _ => 0

/-- The payload of a message write (empty for registrations). -/
def WriterOp.msgData : WriterOp → String
  | .addMessage _ _ d _ => d
  | _ => ""

/-- The publish time of a message write (0 for registrations). -/
def WriterOp.msgPublishTime : WriterOp → Nat
  | .addMessage _ _ _ p => p
  | _ => 0

/-- The session's registration state: `schema_ids : name -> id`,
`channel_ids : (schema_id, topic) -> id`, plus the writer's fresh-id counter. -/
structure Registry where
  nextId : Nat
  schema_ids : List (String × Nat)
  channel_ids : List ((Nat × String) × Nat)
deriving DecidableEq, Repr

/-- The empty registry at writer start. -/
def Registry.init : Registry := ⟨0, [], []⟩

/-- Dictionary lookup in an association list. -/
def lookupKey {α : Type} [DecidableEq α] (m : List (α × Nat)) (k : α) : Option Nat :=
  match m with
  | [] => none
  | (k2, v) :: rest => if k2 = k then some v else lookupKey rest k

/-- Embedding of the `if schema.name not in schema_ids: ... register_schema`
pattern: return the existing id, or assign a fresh one and emit the
registration to the writer. -/
def registerSchemaIfNew (reg : Registry) (s : Schema) : Nat × Registry × List WriterOp :=
  match lookupKey reg.schema_ids s.name with
  | some i => (i, reg, [])
  | none =>
    (reg.nextId,
     { nextId := reg.nextId + 1,
       schema_ids := (s.name, reg.nextId) :: reg.schema_ids,
       channel_ids := reg.channel_ids },
     [WriterOp.regSchema reg.nextId s.name s.encoding s.data])

/-- Embedding of the `if channel_key not in channel_ids: ... register_channel`
pattern, keyed on `(schema_id, topic)`. -/
def registerChannelIfNew (reg : Registry) (schemaId : Nat) (topic message_encoding : String)
    (metadata : List (String × String)) : Nat × Registry × List WriterOp :=
  match lookupKey reg.channel_ids (schemaId, topic) with
  | some i => (i, reg, [])
  | none =>
    (reg.nextId,
     { nextId := reg.nextId + 1,
       schema_ids := reg.schema_ids,
       channel_ids := ((schemaId, topic), reg.nextId) :: reg.channel_ids },
     [WriterOp.regChannel reg.nextId schemaId topic message_encoding metadata])

/-- Embedding of merge.py lines 174-194: select the buffered transient entries
strictly earlier than the regular message's log time, keep the Python slice
`[-latched:]` of them, and write each with the clamped log time and the
regular message's publish time. -/
def emitLatched (latched : Int) (start_ns : Option Nat) (regMsg : Message) (tChannelId : Nat)
    (tMessages : List (Nat × String)) : List WriterOp :=
  let before_messages := tMessages.filter (fun p => p.1 < regMsg.log_time)
  (pySliceFrom (-latched) before_messages).map (fun p =>
    let adjusted_log_time :=
      match start_ns with
      | some s => if p.1 < s then s else regMsg.log_time
      | none => regMsg.log_time
    WriterOp.addMessage tChannelId adjusted_log_time p.2 regMsg.publish_time)

/-- Per-topic buffer of `(log_time, payload)` pairs, in insertion order of
topics (a Python dict of lists). -/
def TransientBuf : Type := List (String × List (Nat × String))

/-- Append an entry to a topic's buffer list, creating the topic's slot on
first sight (dict insertion order preserved). -/
def bufAppend (tb : TransientBuf) (topic : String) (entry : Nat × String) : TransientBuf :=
  match tb with
  | [] => [(topic, [entry])]
  | (t, msgs) :: rest =>
    if t = topic then (t, msgs ++ [entry]) :: rest else (t, msgs) :: bufAppend rest topic entry

/-- Stable insertion of an entry into a timestamp-ascending list. -/
def insertAsc (x : Nat × String) : List (Nat × String) → List (Nat × String)
  | [] => [x]
  | y :: ys => if x.1 ≤ y.1 then x :: y :: ys else y :: insertAsc x ys

/-- Stable ascending sort by timestamp, modelling Python's `sort(key=ts)`. -/
def sortByTs : List (Nat × String) → List (Nat × String)
  | [] => []
  | x :: xs => insertAsc x (sortByTs xs)

/-- Outcome of opening and decoding one input file: unreadable or empty
(contributes nothing), decoding fails after `k` records (contributes the
first `k`), or fully readable. -/
inductive FileStatus where
  | unreadable
  | failsAt (k : Nat)
  | ok
deriving DecidableEq, Repr

/-- An input file of the merge: path, the records its stream would hold, and
how far decoding gets. -/
structure MFile where
  path : String
  records : List Record
  status : FileStatus
deriving DecidableEq, Repr

/-- The records actually obtained from a file once the per-file `try/except`
handlers have absorbed its faults. -/
def readRecords (f : MFile) : List Record :=
  match f.status with
  | .unreadable => []
  | .failsAt k => f.records.take k
  | .ok => f.records

/-- Whether the needle occurs as a contiguous sublist of the haystack. -/
def charsHasSub (needle : List Char) : List Char → Bool
  | [] => needle.isEmpty
  | c :: rest => needle.isPrefixOf (c :: rest) || charsHasSub needle rest

/-- Substring test, modelling Python's `needle in haystack`. -/
def containsSubstr (hay needle : String) : Bool := charsHasSub needle.data hay.data

/-- A result file is a transient file when its path contains the reserved
directory-name marker. -/
def isTransientPath (p : String) : Bool := containsSubstr p "transient_output"

/-- Thread a state through a list while concatenating the writer operations
each step performs, in call order. -/
def foldWithOps {σ α : Type} (f : σ → α → σ × List WriterOp) (s : σ) :
    List α → σ × List WriterOp
  | [] => (s, [])
  | x :: xs =>
    let r1 := f s x
    let r2 := foldWithOps f r1.1 xs
    (r2.1, r1.2 ++ r2.2)

/-- Embedding of merge.py lines 59-88 (Pass 1, one record): filter, register
schema and channel, append `(log_time, data)` to the topic's buffer. -/
def processRecordPass1 (include_topics exclude_topics : List String)
    (st : Registry × TransientBuf) (r : Record) : (Registry × TransientBuf) × List WriterOp :=
  if !checkTopicFilters r.channel.topic (some include_topics) (some exclude_topics) then (st, [])
  else
    let s1 := registerSchemaIfNew st.1 r.schema
    let c1 := registerChannelIfNew s1.2.1 s1.1 r.channel.topic r.channel.message_encoding
      r.channel.metadata
    ((c1.2.1, bufAppend st.2 r.channel.topic (r.message.log_time, r.message.data)),
     s1.2.2 ++ c1.2.2)

/-- Embedding of merge.py lines 123-194 (Pass 2, one record): filter, register
schema and channel, write the live message, then for every buffered topic that
passes the filter register its channel under the live record's schema id and
emit the latched messages. -/
def processRecordPass2 (include_topics exclude_topics : List String) (latched : Int)
    (start_ns : Option Nat) (tb : TransientBuf) (reg : Registry) (r : Record) :
    Registry × List WriterOp :=
  if !checkTopicFilters r.channel.topic (some include_topics) (some exclude_topics) then (reg, [])
  else
    let s1 := registerSchemaIfNew reg r.schema
    let c1 := registerChannelIfNew s1.2.1 s1.1 r.channel.topic r.channel.message_encoding
      r.channel.metadata
    let liveOp := WriterOp.addMessage c1.1 r.message.log_time r.message.data
      r.message.publish_time
    let loop := foldWithOps (fun reg2 (t : String × List (Nat × String)) =>
      if !checkTopicFilters t.1 (some include_topics) (some exclude_topics) then (reg2, [])
      else
        let tc := registerChannelIfNew reg2 s1.1 t.1 r.channel.message_encoding
          r.channel.metadata
        (tc.2.1, tc.2.2 ++ emitLatched latched start_ns r.message tc.1 t.2)) c1.2.1 tb
    (loop.1, s1.2.2 ++ c1.2.2 ++ [liveOp] ++ loop.2)

/-- The raw definition bytes of the reserved placeholder schema of merge.py
line 228. -/
def transientPlaceholderData : String :=
  "\x7b\"type\": \"object\", \"properties\": \x7b\"value\": \x7b\"type\": \"string\"\x7d\x7d\x7d"

/-- Embedding of merge.py lines 211-247 (degenerate transient-only case, one
buffered topic): filter, skip empty buffers, register the reserved placeholder
schema and a channel for the topic under it, and write the buffer's first
entry verbatim. -/
def degenerateTopicWrite (include_topics exclude_topics : List String) (reg : Registry)
    (t : String × List (Nat × String)) : Registry × List WriterOp :=
  if !checkTopicFilters t.1 (some include_topics) (some exclude_topics) then (reg, [])
  else
    match t.2 with
    | [] => (reg, [])
    | (first_ts, first_data) :: _ =>
      let s1 := registerSchemaIfNew reg ⟨"transient_schema", "jsonschema", transientPlaceholderData⟩
      let c1 := registerChannelIfNew s1.2.1 s1.1 t.1 "json" []
      (c1.2.1, s1.2.2 ++ c1.2.2 ++ [WriterOp.addMessage c1.1 first_ts first_data first_ts])

/-- Pass 1, one result file: only files whose path carries the transient
marker are read; faults are absorbed per file by `readRecords`. -/
def pass1FileStep (include_topics exclude_topics : List String)
    (st : Registry × TransientBuf) (f : MFile) : (Registry × TransientBuf) × List WriterOp :=
  if !isTransientPath f.path then (st, [])
  else foldWithOps (processRecordPass1 include_topics exclude_topics) st (readRecords f)

/-- Pass 1 over the whole result list. -/
def pass1Of (results : List MFile) (include_topics exclude_topics : List String) :
    (Registry × TransientBuf) × List WriterOp :=
  foldWithOps (pass1FileStep include_topics exclude_topics)
    (Registry.init, ([] : TransientBuf)) results

/-- Pass 2 over the whole result list: transient files are skipped, every
other file is streamed through `processRecordPass2`. -/
def pass2Of (include_topics exclude_topics : List String) (latched : Int)
    (start_ns : Option Nat) (tb : TransientBuf) (reg : Registry) (results : List MFile) :
    Registry × List WriterOp :=
  foldWithOps (fun reg2 f =>
      if isTransientPath f.path then (reg2, [])
      else foldWithOps (processRecordPass2 include_topics exclude_topics latched start_ns tb)
        reg2 (readRecords f))
    reg results

/-- Embedding of `merge.merge_mcap_files`: Pass 1 collects and sorts the
transient buffers, Pass 2 streams the regular files, and when every result is
a transient file the degenerate per-topic write runs; the writer-operation
stream is the concatenation in call order. -/
def mergeMcapFiles (results : List MFile) (include_topics exclude_topics : List String)
    (latched : Int) (start_ns : Option Nat) : Registry × List WriterOp :=
  let p1 := pass1Of results include_topics exclude_topics
  let tb : TransientBuf := p1.1.2.map (fun t => (t.1, sortByTs t.2))
  let p2 := pass2Of include_topics exclude_topics latched start_ns tb p1.1.1 results
  let p3 :=
    if results.all (fun f => isTransientPath f.path) then
      foldWithOps (degenerateTopicWrite include_topics exclude_topics) p2.1 tb
    else (p2.1, [])
  (p3.1, p1.2 ++ p2.2 ++ p3.2)

/-- An input file of the query: path, the `(topic, log_time)` pairs its stream
would yield, and how far decoding gets. -/
structure QFile where
  path : String
  records : List (String × Nat)
  status : FileStatus
deriving DecidableEq, Repr

/-- The pairs actually obtained from a query file once its faults are absorbed. -/
def qReadRecords (f : QFile) : List (String × Nat) :=
  match f.status with
  | .unreadable => []
  | .failsAt k => f.records.take k
  | .ok => f.records

/-- Embedding of `mcap_utils.process_mcap_file`: yield the `(topic, log_time)`
pairs passing the topic filters; per-file faults are absorbed. -/
def processMcapFile (include_topics exclude_topics : Option (List String)) (f : QFile) :
    List (String × Nat) :=
  (qReadRecords f).filter (fun p => checkTopicFilters p.1 include_topics exclude_topics)

/-- Embedding of `query.QueryResult`: the matching-topic set is kept as a
duplicate-free list in first-match order. -/
structure QueryResult where
  file_path : String
  matching_topics : List String
  start_time : Nat
  end_time : Nat
deriving DecidableEq, Repr

/-- Running state of the per-file loop of `query.query_mcap_files`. -/
structure QScan where
  matching_topics : List String
  file_start_time : Option Nat
  file_end_time : Option Nat
deriving DecidableEq, Repr

/-- One step of the per-file loop of query.py lines 57-72: on a message inside
the inclusive window, add its topic and update the running min/max. -/
def qScanStep (start_ns end_ns : Nat) (st : QScan) (p : String × Nat) : QScan :=
  if start_ns ≤ p.2 && p.2 ≤ end_ns then
    { matching_topics :=
        if st.matching_topics.contains p.1 then st.matching_topics
        else st.matching_topics ++ [p.1],
      file_start_time :=
        match st.file_start_time with
        | none => some p.2
        | some s => if p.2 < s then some p.2 else some s,
      file_end_time :=
        match st.file_end_time with
        | none => some p.2
        | some e => if p.2 > e then some p.2 else some e }
  else st

/-- Per-file part of `query.query_mcap_files` (lines 51-85): scan the file's
admitted pairs and produce a QueryResult only when some topic matched. -/
def queryFile (start_ns end_ns : Nat) (include_topics exclude_topics : Option (List String))
    (f : QFile) : Option QueryResult :=
  let st := (processMcapFile include_topics exclude_topics f).foldl
    (qScanStep start_ns end_ns) ⟨[], none, none⟩
  if st.matching_topics.isEmpty then none
  else some ⟨f.path, st.matching_topics, st.file_start_time.getD 0, st.file_end_time.getD 0⟩

/-- Python `set(xs) if xs else None` as applied to the optional topic lists at
the top of `query.query_mcap_files`. -/
def truthyOpt (o : Option (List String)) : Option (List String) :=
  match o with
  | none => none
  | some l => if l.isEmpty then none else some l

/-- Embedding of `query.query_mcap_files` over an already-enumerated file
list: files with no match are dropped. -/
def queryMcapFiles (start_ns end_ns : Nat) (include_topics exclude_topics : Option (List String))
    (files : List QFile) : List QueryResult :=
  files.filterMap (queryFile start_ns end_ns (truthyOpt include_topics) (truthyOpt exclude_topics))

/-- A topic file handed to the CLI: missing, or present with its lines. -/
inductive TopicFileInput where
  | missing
  | present (lines : List String)
deriving DecidableEq, Repr

/-- Fatal configuration errors of the CLI merge command's topic-file handling. -/
inductive CliError where
  | topicFileMissing
  | noTopicsSpecified
deriving DecidableEq, Repr

/-- Python whitespace as used by `str.strip()`. -/
def isPySpace (c : Char) : Bool :=
  c = ' ' || c = '\t' || c = '\n' || c = '\r' || c = '\x0b' || c = '\x0c'

/-- Python `line.strip()`: remove leading and trailing whitespace. -/
def pyStrip (s : String) : String :=
  String.mk (((s.data.dropWhile isPySpace).reverse.dropWhile isPySpace).reverse)

/-- Embedding of `mcap_utils.read_topics_from_file`: strip each line and drop
the blank ones. -/
def readTopicsFromFile (lines : List String) : List String :=
  (lines.map pyStrip).filter (fun l => l ≠ "")

/-- The per-file loop body shared by cli.py lines 132-145 and 152-165:
a missing file aborts; an existing file contributes its parsed topics (a file
parsing to zero topics is skipped and contributes nothing). -/
def gatherFileTopics : List TopicFileInput → Except CliError (List String)
  | [] => .ok []
  | .missing :: _ => .error .topicFileMissing
  | .present lines :: rest =>
    match gatherFileTopics rest with
    | .error e => .error e
    | .ok ts => .ok (readTopicsFromFile lines ++ ts)

/-- Embedding of cli.py lines 127-166: extend the include list from the
include-topics files (failing with the no-topics error when they jointly parse
to zero topics), then extend the exclude list from the exclude-topics files
(with no such emptiness check). -/
def mergeCliTopics (include_list exclude_list : List String)
    (include_files exclude_files : List TopicFileInput) :
    Except CliError (List String × List String) :=
  match
    (if include_files.isEmpty then .ok include_list
     else
       match gatherFileTopics include_files with
       | .error e => .error e
       | .ok ts => if ts.isEmpty then .error .noTopicsSpecified else .ok (include_list ++ ts) :
      Except CliError (List String))
  with
  | .error e => .error e
  | .ok inc =>
    match
      (if exclude_files.isEmpty then .ok exclude_list
       else
         match gatherFileTopics exclude_files with
         | .error e => .error e
         | .ok ts => .ok (exclude_list ++ ts) : Except CliError (List String))
    with
    | .error e => .error e
    | .ok exc => .ok (inc, exc)

/-- Registry extension: every schema and channel id already assigned in the
first registry is still assigned, unchanged, in the second. -/
def Registry.keeps (reg reg2 : Registry) : Prop :=
  (∀ k i, lookupKey reg.schema_ids k = some i → lookupKey reg2.schema_ids k = some i)
  ∧ (∀ k i, lookupKey reg.channel_ids k = some i → lookupKey reg2.channel_ids k = some i)

/-- Projection of a writer-operation stream to its message writes, keeping
`(log_time, data, publish_time)`. -/
def addMsgProj (ops : List WriterOp) : List (Nat × String × Nat) :=
  ops.filterMap (fun op =>
    match op with
    | .addMessage _ lt d pt => some (lt, d, pt)
    | _ => none)

/-- The `(log_time, data, publish_time)` triple the degenerate transient-only
case writes for a buffered topic: its first entry verbatim, the entry's
timestamp serving as both log and publish time. -/
def firstEntryProj (t : String × List (Nat × String)) : Nat × String × Nat :=
  ((t.2.headD (0, "")).1, (t.2.headD (0, "")).2, (t.2.headD (0, "")).1)

/-- The fault-free view of a merge input file: same path, exactly the records
the per-file handlers let through, no failure left. -/
def cleanFile (f : MFile) : MFile := ⟨f.path, readRecords f, .ok⟩

/-- The fault-free view of a query input file. -/
def cleanQFile (f : QFile) : QFile := ⟨f.path, qReadRecords f, .ok⟩

/-- The running-minimum update of query.py lines 65-66 in closed form. -/
def optMinUpd (o : Option Nat) (v : Nat) : Option Nat := some (min (o.getD v) v)

/-- The running-maximum update of query.py lines 67-68 in closed form. -/
def optMaxUpd (o : Option Nat) (v : Nat) : Option Nat := some (max (o.getD v) v)

/-! ### Helper lemmas -/

/-- An element of a Python slice is an element of the sliced list. -/
theorem mem_pySliceFrom {α : Type} {x : α} {i : Int} {l : List α}
    (h : x ∈ pySliceFrom i l) : x ∈ l := by
  unfold pySliceFrom at h
  split at h <;> exact List.mem_of_mem_drop h

/-- For a positive count the Python slice `l[-n:]` is the suffix dropping all
but the last `n` elements. -/
theorem pySliceFrom_neg {α : Type} {n : Int} (h : 1 ≤ n) (l : List α) :
    pySliceFrom (-n) l = l.drop (l.length - n.toNat) := by
  unfold pySliceFrom
  rw [if_pos (by omega)]
  congr 1
  omega

/-- The number of latched messages the emission step produces. -/
theorem emitLatched_length {latched : Int} (h : 1 ≤ latched) (start_ns : Option Nat)
    (regMsg : Message) (cid : Nat) (tMessages : List (Nat × String)) :
    (emitLatched latched start_ns regMsg cid tMessages).length
      = min latched.toNat (tMessages.filter (fun p => p.1 < regMsg.log_time)).length := by
  unfold emitLatched
  rw [List.length_map, pySliceFrom_neg h, List.length_drop]
  omega

/-- Every operation the emission step produces is a message write. -/
theorem emitLatched_all_add (latched : Int) (start_ns : Option Nat) (regMsg : Message)
    (cid : Nat) (tMessages : List (Nat × String)) :
    ∀ op ∈ emitLatched latched start_ns regMsg cid tMessages, op.isAddMessage = true := by
  intro op hop
  unfold emitLatched at hop
  rcases List.mem_map.1 hop with ⟨p, _, rfl⟩
  cases start_ns <;> simp [WriterOp.isAddMessage]

/-- Registering a schema never writes a message. -/
theorem registerSchemaIfNew_countP_add (reg : Registry) (s : Schema) :
    ((registerSchemaIfNew reg s).2.2).countP WriterOp.isAddMessage = 0 := by
  unfold registerSchemaIfNew
  cases lookupKey reg.schema_ids s.name <;> simp [WriterOp.isAddMessage]

/-- Registering a channel never writes a message. -/
theorem registerChannelIfNew_countP_add (reg : Registry) (sid : Nat) (topic enc : String)
    (md : List (String × String)) :
    ((registerChannelIfNew reg sid topic enc md).2.2).countP WriterOp.isAddMessage = 0 := by
  unfold registerChannelIfNew
  cases lookupKey reg.channel_ids (sid, topic) <;> simp [WriterOp.isAddMessage]

/-! ### Claim theorems -/

/-- Claim C9: the filter admits a topic iff the include set is empty or absent
or contains it, and the exclude set is empty or absent or does not contain it;
the function is total by construction. -/
theorem c9_filter_characterization (t : String) (inc exc : Option (List String)) :
    checkTopicFilters t inc exc = true ↔
      ((inc.getD [] = [] ∨ t ∈ inc.getD []) ∧ (exc.getD [] = [] ∨ t ∉ exc.getD [])) := by
  unfold checkTopicFilters optNonempty
  cases inc with
  | none =>
    cases exc with
    | none => simp
    | some le =>
      by_cases he : le = [] <;>
        simp [he, List.isEmpty_iff, List.elem_iff]
  | some li =>
    cases exc with
    | none =>
      by_cases hi : li = [] <;>
        simp [hi, List.isEmpty_iff, List.elem_iff]
    | some le =>
      by_cases hi : li = [] <;> by_cases he : le = [] <;>
        simp [hi, he, List.isEmpty_iff, List.elem_iff]

/-- Claim C1: with `latched_count ≥ 1`, the number of latched messages emitted
for a buffered topic alongside a regular message at time T is
`min(latched_count, #entries earlier than T)`, and their payloads are exactly
those of the last `latched_count` entries of the buffer that are strictly
earlier than T, in order. -/
theorem c1_transient_emission_selection (latched : Int) (start_ns : Option Nat)
    (regMsg : Message) (cid : Nat) (tMessages : List (Nat × String)) (h : 1 ≤ latched) :
    (emitLatched latched start_ns regMsg cid tMessages).length
      = min latched.toNat (tMessages.filter (fun p => p.1 < regMsg.log_time)).length
    ∧ (emitLatched latched start_ns regMsg cid tMessages).map WriterOp.msgData
      = ((tMessages.filter (fun p => p.1 < regMsg.log_time)).drop
          ((tMessages.filter (fun p => p.1 < regMsg.log_time)).length - latched.toNat)).map
          Prod.snd := by
  refine ⟨emitLatched_length h start_ns regMsg cid tMessages, ?_⟩
  simp only [emitLatched]
  rw [pySliceFrom_neg h, List.map_map]
  apply List.map_eq_map_iff.mpr
  intro p _
  cases start_ns <;> simp [WriterOp.msgData]

/-- Witness for C1 at a concrete input. -/
theorem c1_transient_emission_selection_witness :
    (1 : Int) ≤ 2
    ∧ ((emitLatched 2 none ⟨10, 10, "r"⟩ 7 [(1, "a"), (3, "b"), (9, "c"), (11, "d")]).length
        = min (Int.toNat 2)
            (([(1, "a"), (3, "b"), (9, "c"), (11, "d")] : List (Nat × String)).filter
              (fun p => p.1 < (10 : Nat))).length
      ∧ (emitLatched 2 none ⟨10, 10, "r"⟩ 7 [(1, "a"), (3, "b"), (9, "c"), (11, "d")]).map
            WriterOp.msgData
        = ((([(1, "a"), (3, "b"), (9, "c"), (11, "d")] : List (Nat × String)).filter
              (fun p => p.1 < (10 : Nat))).drop
            ((([(1, "a"), (3, "b"), (9, "c"), (11, "d")] : List (Nat × String)).filter
              (fun p => p.1 < (10 : Nat))).length - Int.toNat 2)).map Prod.snd) :=
  ⟨by decide,
   c1_transient_emission_selection 2 none ⟨10, 10, "r"⟩ 7
     [(1, "a"), (3, "b"), (9, "c"), (11, "d")] (by decide)⟩

/-- Claim C10: with `start_ns = None` no clamping occurs; every latched
message's log time equals the triggering regular message's log time. -/
theorem c10_no_clamping_without_start (latched : Int) (regMsg : Message) (cid : Nat)
    (tMessages : List (Nat × String)) :
    ∀ op ∈ emitLatched latched none regMsg cid tMessages,
      op.msgLogTime = regMsg.log_time := by
  intro op hop
  unfold emitLatched at hop
  rcases List.mem_map.1 hop with ⟨p, _, rfl⟩
  simp [WriterOp.msgLogTime]

/-- Witness for C10 at a concrete input. -/
theorem c10_no_clamping_without_start_witness :
    (WriterOp.addMessage 7 10 "x" 10) ∈ emitLatched 1 none ⟨10, 10, "r"⟩ 7 [(3, "x")]
    ∧ (WriterOp.addMessage 7 10 "x" 10).msgLogTime = (Message.mk 10 10 "r").log_time :=
  ⟨by decide,
   c10_no_clamping_without_start 1 ⟨10, 10, "r"⟩ 7 [(3, "x")]
     (WriterOp.addMessage 7 10 "x" 10) (by decide)⟩

/-- Counterexample to claim C2 as stated: at a regular message with log time
T = 10 but publish time 5, the emitted latched message carries publish time 5,
not T. -/
theorem c2_counterexample :
    ¬ (∀ op ∈ emitLatched 1 (some 1) ⟨10, 5, "r"⟩ 7 [(3, "x")],
        op.msgPublishTime = (10 : Nat)) := by
  decide

/-- Claim C2 as amended: every latched message emitted for a selected entry
`(ts, payload)` carries the payload unchanged, the triggering regular
message's publish time (not its log time T), and log time `start_ns` if
`ts < start_ns`, else T. -/
theorem c2_amended_latched_write_shape (latched : Int) (s : Nat) (regMsg : Message)
    (cid : Nat) (tMessages : List (Nat × String)) :
    ∀ op ∈ emitLatched latched (some s) regMsg cid tMessages,
      ∃ ts payload, (ts, payload) ∈ tMessages ∧ ts < regMsg.log_time ∧
        op = WriterOp.addMessage cid (if ts < s then s else regMsg.log_time) payload
          regMsg.publish_time := by
  intro op hop
  unfold emitLatched at hop
  rcases List.mem_map.1 hop with ⟨p, hp, rfl⟩
  have hmem := mem_pySliceFrom hp
  rw [List.mem_filter] at hmem
  exact ⟨p.1, p.2, hmem.1, by simpa using hmem.2, rfl⟩

/-- Witness for the amended C2 at a concrete input. -/
theorem c2_amended_latched_write_shape_witness :
    (WriterOp.addMessage 7 10 "x" 5) ∈ emitLatched 1 (some 1) ⟨10, 5, "r"⟩ 7 [(3, "x")]
    ∧ ∃ ts payload, (ts, payload) ∈ [((3 : Nat), "x")] ∧ ts < (10 : Nat) ∧
        WriterOp.addMessage 7 10 "x" 5
          = WriterOp.addMessage 7 (if ts < 1 then 1 else 10) payload 5 :=
  ⟨by decide,
   c2_amended_latched_write_shape 1 1 ⟨10, 5, "r"⟩ 7 [(3, "x")]
     (WriterOp.addMessage 7 10 "x" 5) (by decide)⟩

/-- Counterexample to claim C3 as stated: a regular record on topic X whose
topic also sits in the transient buffer triggers a latched re-emission on X's
own channel, so the record is accompanied by two message writes, not one. -/
theorem c3_counterexample :
    (processRecordPass2 [] [] 1 none [("X", [(3, "p")])] Registry.init
        ⟨⟨"S", "enc", "sd"⟩, ⟨"X", "json", []⟩, ⟨10, 10, "live"⟩⟩).2
      = [WriterOp.regSchema 0 "S" "enc" "sd", WriterOp.regChannel 1 0 "X" "json" [],
         WriterOp.addMessage 1 10 "live" 10, WriterOp.addMessage 1 10 "p" 10]
    ∧ ¬ ((processRecordPass2 [] [] 1 none [("X", [(3, "p")])] Registry.init
        ⟨⟨"S", "enc", "sd"⟩, ⟨"X", "json", []⟩, ⟨10, 10, "live"⟩⟩).2.countP
          WriterOp.isAddMessage = 1) := by
  decide

/-- Claim C3 as amended: the Pass-2 transient loop runs over every admitted
buffered topic including the record's own topic X, so when X itself is in the
buffer with entries earlier than the record's log time, the live write on X is
accompanied by at least one latched re-emission. -/
theorem c3_amended_self_topic_reemission (inc exc : List String) (latched : Int)
    (start_ns : Option Nat) (tMsgs : List (Nat × String)) (reg : Registry) (r : Record)
    (hadm : checkTopicFilters r.channel.topic (some inc) (some exc) = true)
    (hl : 1 ≤ latched)
    (hb : tMsgs.filter (fun p => p.1 < r.message.log_time) ≠ []) :
    2 ≤ ((processRecordPass2 inc exc latched start_ns [(r.channel.topic, tMsgs)] reg r).2.countP
      WriterOp.isAddMessage) := by
  simp only [processRecordPass2, foldWithOps, hadm, Bool.not_true, Bool.false_eq_true,
    if_false, List.append_nil]
  rw [List.countP_append, List.countP_append, List.countP_append,
    registerSchemaIfNew_countP_add, registerChannelIfNew_countP_add, List.countP_append,
    registerChannelIfNew_countP_add]
  have hlen := emitLatched_length hl start_ns r.message
    (registerChannelIfNew
      (registerChannelIfNew (registerSchemaIfNew reg r.schema).2.1
        (registerSchemaIfNew reg r.schema).1 r.channel.topic r.channel.message_encoding
        r.channel.metadata).2.1
      (registerSchemaIfNew reg r.schema).1 r.channel.topic r.channel.message_encoding
      r.channel.metadata).1 tMsgs
  have hall := List.countP_eq_length.mpr (emitLatched_all_add latched start_ns r.message
    (registerChannelIfNew
      (registerChannelIfNew (registerSchemaIfNew reg r.schema).2.1
        (registerSchemaIfNew reg r.schema).1 r.channel.topic r.channel.message_encoding
        r.channel.metadata).2.1
      (registerSchemaIfNew reg r.schema).1 r.channel.topic r.channel.message_encoding
      r.channel.metadata).1 tMsgs)
  have hpos : 1 ≤ (tMsgs.filter (fun p => p.1 < r.message.log_time)).length :=
    List.length_pos.mpr hb
  simp [WriterOp.isAddMessage, hall, hlen]
  omega

/-- Witness for the amended C3 at a concrete input. -/
theorem c3_amended_self_topic_reemission_witness :
    checkTopicFilters "X" (some []) (some []) = true
    ∧ (1 : Int) ≤ 1
    ∧ ([((3 : Nat), "p")].filter (fun p => p.1 < (10 : Nat)) ≠ [])
    ∧ 2 ≤ ((processRecordPass2 [] [] 1 none [("X", [(3, "p")])] Registry.init
        ⟨⟨"S", "enc", "sd"⟩, ⟨"X", "json", []⟩, ⟨10, 10, "live"⟩⟩).2.countP
          WriterOp.isAddMessage) :=
  ⟨by decide, by decide, by decide,
   c3_amended_self_topic_reemission [] [] 1 none [(3, "p")] Registry.init
     ⟨⟨"S", "enc", "sd"⟩, ⟨"X", "json", []⟩, ⟨10, 10, "live"⟩⟩ (by decide) (by decide)
     (by decide)⟩

/-- Registry extension is reflexive. -/
theorem Registry.keeps_refl (reg : Registry) : reg.keeps reg :=
  ⟨fun _ _ h => h, fun _ _ h => h⟩

/-- Registry extension is transitive. -/
theorem Registry.keeps_trans {a b c : Registry} (h1 : a.keeps b) (h2 : b.keeps c) :
    a.keeps c :=
  ⟨fun k i h => h2.1 k i (h1.1 k i h), fun k i h => h2.2 k i (h1.2 k i h)⟩

/-- Prepending a fresh key to an association list keeps existing lookups. -/
theorem lookupKey_cons_of_lookup {α : Type} [DecidableEq α] {m : List (α × Nat)}
    {k k2 : α} {i v : Nat} (hnew : lookupKey m k2 = none) (h : lookupKey m k = some i) :
    lookupKey ((k2, v) :: m) k = some i := by
  unfold lookupKey
  by_cases he : k2 = k
  · subst he
    rw [hnew] at h
    exact absurd h (by simp)
  · rw [if_neg he]
    exact h

/-- Registering a schema extends the registry. -/
theorem registerSchemaIfNew_keeps (reg : Registry) (s : Schema) :
    reg.keeps (registerSchemaIfNew reg s).2.1 := by
  unfold registerSchemaIfNew
  cases hl : lookupKey reg.schema_ids s.name with
  | some i => exact Registry.keeps_refl reg
  | none =>
    exact ⟨fun k i h => lookupKey_cons_of_lookup hl h, fun _ _ h => h⟩

/-- Registering a channel extends the registry. -/
theorem registerChannelIfNew_keeps (reg : Registry) (sid : Nat) (topic enc : String)
    (md : List (String × String)) :
    reg.keeps (registerChannelIfNew reg sid topic enc md).2.1 := by
  unfold registerChannelIfNew
  cases hl : lookupKey reg.channel_ids (sid, topic) with
  | some i => exact Registry.keeps_refl reg
  | none =>
    exact ⟨fun _ _ h => h, fun k i h => lookupKey_cons_of_lookup hl h⟩

/-- A state-threading fold preserves any reflexive transitive step-invariant
relation. -/
theorem foldWithOps_pres {σ α : Type} (P : σ → σ → Prop) (hrefl : ∀ s, P s s)
    (htrans : ∀ a b c, P a b → P b c → P a c) (f : σ → α → σ × List WriterOp)
    (h : ∀ s a, P s (f s a).1) : ∀ (l : List α) (s : σ), P s (foldWithOps f s l).1 := by
  intro l
  induction l with
  | nil => intro s; exact hrefl s
  | cons x xs ih =>
    intro s
    exact htrans _ _ _ (h s x) (ih (f s x).1)

/-- Processing one Pass-2 record extends the registry. -/
theorem processRecordPass2_keeps (inc exc : List String) (latched : Int)
    (start_ns : Option Nat) (tb : TransientBuf) (reg : Registry) (r : Record) :
    reg.keeps (processRecordPass2 inc exc latched start_ns tb reg r).1 := by
  unfold processRecordPass2
  split
  · exact Registry.keeps_refl reg
  · dsimp only
    refine Registry.keeps_trans (registerSchemaIfNew_keeps reg r.schema) ?_
    refine Registry.keeps_trans
      (registerChannelIfNew_keeps (registerSchemaIfNew reg r.schema).2.1
        (registerSchemaIfNew reg r.schema).1 r.channel.topic r.channel.message_encoding
        r.channel.metadata) ?_
    apply foldWithOps_pres Registry.keeps Registry.keeps_refl
      (fun _ _ _ => Registry.keeps_trans)
    intro s t
    dsimp only
    split
    · exact Registry.keeps_refl s
    · exact registerChannelIfNew_keeps _ _ _ _ _

/-- Processing one Pass-1 record extends the registry. -/
theorem processRecordPass1_keeps (inc exc : List String) (st : Registry × TransientBuf)
    (r : Record) : st.1.keeps (processRecordPass1 inc exc st r).1.1 := by
  unfold processRecordPass1
  split
  · exact Registry.keeps_refl st.1
  · exact Registry.keeps_trans (registerSchemaIfNew_keeps st.1 r.schema)
      (registerChannelIfNew_keeps _ _ _ _ _)

/-- Claim C6: schema registration is idempotent keyed on name and channel
registration is idempotent keyed on (schema id, topic): a key already present
is answered with its previously assigned id and no state change or writer
output; a fresh key receives the writer's next id, which is then retrievable;
and both passes of the merge only extend the registry, so ids assigned
earlier remain in force throughout the session. -/
theorem c6_registry_idempotence :
    (∀ (reg : Registry) (s : Schema) i, lookupKey reg.schema_ids s.name = some i →
        registerSchemaIfNew reg s = (i, reg, []))
    ∧ (∀ (reg : Registry) (s : Schema), lookupKey reg.schema_ids s.name = none →
        (registerSchemaIfNew reg s).1 = reg.nextId
        ∧ lookupKey ((registerSchemaIfNew reg s).2.1.schema_ids) s.name = some reg.nextId)
    ∧ (∀ (reg : Registry) sid (topic enc : String) md i,
        lookupKey reg.channel_ids (sid, topic) = some i →
        registerChannelIfNew reg sid topic enc md = (i, reg, []))
    ∧ (∀ (reg : Registry) sid (topic enc : String) md,
        lookupKey reg.channel_ids (sid, topic) = none →
        (registerChannelIfNew reg sid topic enc md).1 = reg.nextId
        ∧ lookupKey ((registerChannelIfNew reg sid topic enc md).2.1.channel_ids) (sid, topic)
            = some reg.nextId)
    ∧ (∀ (inc exc : List String) (results : List MFile) (st : Registry × TransientBuf),
        st.1.keeps ((foldWithOps (pass1FileStep inc exc) st results).1.1))
    ∧ (∀ (inc exc : List String) (latched : Int) (start_ns : Option Nat) (tb : TransientBuf)
        (results : List MFile) (reg : Registry),
        reg.keeps ((pass2Of inc exc latched start_ns tb reg results).1)) := by
  refine ⟨?_, ?_, ?_, ?_, ?_, ?_⟩
  · intro reg s i h
    unfold registerSchemaIfNew
    rw [h]
  · intro reg s h
    unfold registerSchemaIfNew
    rw [h]
    exact ⟨rfl, by unfold lookupKey; rw [if_pos rfl]⟩
  · intro reg sid topic enc md i h
    unfold registerChannelIfNew
    rw [h]
  · intro reg sid topic enc md h
    unfold registerChannelIfNew
    rw [h]
    exact ⟨rfl, by unfold lookupKey; rw [if_pos rfl]⟩
  · intro inc exc results st
    refine foldWithOps_pres (fun (a b : Registry × TransientBuf) => a.1.keeps b.1)
      (fun s => Registry.keeps_refl s.1) (fun _ _ _ h1 h2 => Registry.keeps_trans h1 h2)
      (pass1FileStep inc exc) ?_ results st
    intro s f
    unfold pass1FileStep
    split
    · exact Registry.keeps_refl s.1
    · exact foldWithOps_pres (fun (a b : Registry × TransientBuf) => a.1.keeps b.1)
        (fun s2 => Registry.keeps_refl s2.1) (fun _ _ _ h1 h2 => Registry.keeps_trans h1 h2)
        (processRecordPass1 inc exc) (fun s2 r => processRecordPass1_keeps inc exc s2 r)
        (readRecords f) s
  · intro inc exc latched start_ns tb results reg
    unfold pass2Of
    apply foldWithOps_pres Registry.keeps Registry.keeps_refl
      (fun _ _ _ => Registry.keeps_trans)
    intro s f
    dsimp only
    split
    · exact Registry.keeps_refl s
    · apply foldWithOps_pres Registry.keeps Registry.keeps_refl
        (fun _ _ _ => Registry.keeps_trans)
      exact fun s2 r => processRecordPass2_keeps inc exc latched start_ns tb s2 r

/-- Witness for C6 at a concrete registry: re-registering the schema name S
returns its existing id 3 and leaves everything untouched. -/
theorem c6_registry_idempotence_witness :
    lookupKey (Registry.mk 5 [("S", 3)] []).schema_ids "S" = some 3
    ∧ registerSchemaIfNew (Registry.mk 5 [("S", 3)] []) ⟨"S", "e", "d"⟩
        = (3, Registry.mk 5 [("S", 3)] [], []) :=
  ⟨by decide, c6_registry_idempotence.1 (Registry.mk 5 [("S", 3)] []) ⟨"S", "e", "d"⟩ 3
    (by decide)⟩

/-- The message-write projection distributes over concatenation. -/
theorem addMsgProj_append (a b : List WriterOp) :
    addMsgProj (a ++ b) = addMsgProj a ++ addMsgProj b :=
  List.filterMap_append a b _

/-- Registering a schema contributes no message write. -/
theorem addMsgProj_registerSchemaIfNew (reg : Registry) (s : Schema) :
    addMsgProj (registerSchemaIfNew reg s).2.2 = [] := by
  unfold registerSchemaIfNew
  cases lookupKey reg.schema_ids s.name <;> simp [addMsgProj]

/-- Registering a channel contributes no message write. -/
theorem addMsgProj_registerChannelIfNew (reg : Registry) (sid : Nat) (topic enc : String)
    (md : List (String × String)) :
    addMsgProj (registerChannelIfNew reg sid topic enc md).2.2 = [] := by
  unfold registerChannelIfNew
  cases lookupKey reg.channel_ids (sid, topic) <;> simp [addMsgProj]

/-- A fold whose steps write no message writes no message. -/
theorem foldWithOps_addMsgProj_nil {σ α : Type} (f : σ → α → σ × List WriterOp)
    (h : ∀ s a, addMsgProj (f s a).2 = []) :
    ∀ (l : List α) (s : σ), addMsgProj ((foldWithOps f s l).2) = [] := by
  intro l
  induction l with
  | nil => intro s; simp [foldWithOps, addMsgProj]
  | cons x xs ih =>
    intro s
    simp only [foldWithOps]
    rw [addMsgProj_append, h, ih, List.append_nil]

/-- Pass-1 record processing performs registrations only. -/
theorem processRecordPass1_addMsgProj (inc exc : List String) (st : Registry × TransientBuf)
    (r : Record) : addMsgProj (processRecordPass1 inc exc st r).2 = [] := by
  unfold processRecordPass1
  split
  · simp [addMsgProj]
  · dsimp only
    rw [addMsgProj_append, addMsgProj_registerSchemaIfNew, addMsgProj_registerChannelIfNew,
      List.append_nil]

/-- Pass 1 writes no message at all. -/
theorem pass1Of_addMsgProj (results : List MFile) (inc exc : List String) :
    addMsgProj ((pass1Of results inc exc).2) = [] := by
  unfold pass1Of
  apply foldWithOps_addMsgProj_nil
  intro s f
  unfold pass1FileStep
  split
  · simp [addMsgProj]
  · exact foldWithOps_addMsgProj_nil _ (fun s2 r => processRecordPass1_addMsgProj inc exc s2 r)
      (readRecords f) s

/-- Pass 2 over a result list made of transient files only does nothing. -/
theorem pass2Of_all_transient (inc exc : List String) (latched : Int) (start_ns : Option Nat)
    (tb : TransientBuf) :
    ∀ (results : List MFile) (reg : Registry),
      results.all (fun f => isTransientPath f.path) = true →
      pass2Of inc exc latched start_ns tb reg results = (reg, []) := by
  intro results
  induction results with
  | nil => intro reg _; rfl
  | cons f fs ih =>
    intro reg h
    rw [List.all_cons, Bool.and_eq_true] at h
    unfold pass2Of foldWithOps
    dsimp only
    rw [if_pos h.1]
    have := ih reg h.2
    unfold pass2Of at this
    rw [this]
    rfl

/-- The degenerate transient-only step writes exactly one message per
admitted topic with a non-empty buffer: the buffer's first entry, with its
own timestamp as both log and publish time. -/
theorem degenerate_addMsgProj (inc exc : List String) :
    ∀ (tb : TransientBuf) (reg : Registry),
      addMsgProj ((foldWithOps (degenerateTopicWrite inc exc) reg tb).2)
        = (tb.filter (fun t => checkTopicFilters t.1 (some inc) (some exc) && !t.2.isEmpty)).map
            firstEntryProj := by
  intro tb
  induction tb with
  | nil => intro reg; simp [foldWithOps, addMsgProj]
  | cons t ts ih =>
    intro reg
    simp only [foldWithOps]
    rw [addMsgProj_append, List.filter_cons]
    rcases t with ⟨topic, msgs⟩
    by_cases hc : checkTopicFilters topic (some inc) (some exc) = true
    · cases msgs with
      | nil =>
        have hcond : (checkTopicFilters topic (some inc) (some exc)
            && !(List.isEmpty ([] : List (Nat × String)))) = false := by
          simp
        rw [hcond, if_neg (by simp)]
        simp only [degenerateTopicWrite, hc, Bool.not_true, Bool.false_eq_true, if_false]
        rw [ih]
        rfl
      | cons e rest =>
        have hcond : (checkTopicFilters topic (some inc) (some exc)
            && !(List.isEmpty (e :: rest))) = true := by
          simp [hc]
        rw [hcond, if_pos rfl]
        simp only [degenerateTopicWrite, hc, Bool.not_true, Bool.false_eq_true, if_false]
        rcases e with ⟨first_ts, first_data⟩
        dsimp only
        rw [addMsgProj_append, addMsgProj_append, addMsgProj_registerSchemaIfNew,
          addMsgProj_registerChannelIfNew, ih]
        rfl
    · have hcf : (checkTopicFilters topic (some inc) (some exc) && !msgs.isEmpty) = false := by
        simp [hc]
      rw [hcf, if_neg (by simp)]
      simp only [degenerateTopicWrite]
      rw [if_pos (by simp [hc]), ih]
      rfl

/-- Counterexample to claim C4 as stated: a transient-only merge whose topic A
had its own schema SA registered in Pass 1 (channel 1) still writes the
degenerate message on a fresh channel (3) bound to the reserved placeholder
schema, not on A's own channel. -/
theorem c4_counterexample :
    (mergeMcapFiles [⟨"transient_output/a.mcap",
        [⟨⟨"SA", "enc", "sa"⟩, ⟨"A", "json", []⟩, ⟨5, 5, "pay"⟩⟩], .ok⟩] [] [] 1 none).2
      = [WriterOp.regSchema 0 "SA" "enc" "sa", WriterOp.regChannel 1 0 "A" "json" [],
         WriterOp.regSchema 2 "transient_schema" "jsonschema" transientPlaceholderData,
         WriterOp.regChannel 3 2 "A" "json" [], WriterOp.addMessage 3 5 "pay" 5]
    ∧ ¬ (∀ op ∈ (mergeMcapFiles [⟨"transient_output/a.mcap",
        [⟨⟨"SA", "enc", "sa"⟩, ⟨"A", "json", []⟩, ⟨5, 5, "pay"⟩⟩], .ok⟩] [] [] 1 none).2,
          op.isAddMessage = true → op.msgChannelId = 1) := by
  constructor
  · rfl
  · decide

/-- Claim C4 as amended: in a transient-only merge the message writes are
exactly one per admitted non-empty transient topic, each carrying the earliest
buffered entry verbatim (its original timestamp as log and publish time, its
original payload) — always through the reserved placeholder schema/channel,
regardless of whether the topic's own schema was registered. -/
theorem c4_amended_degenerate_writes (results : List MFile) (inc exc : List String)
    (latched : Int) (start_ns : Option Nat)
    (h : results.all (fun f => isTransientPath f.path) = true) :
    addMsgProj (mergeMcapFiles results inc exc latched start_ns).2
      = ((((pass1Of results inc exc).1.2).map (fun t => (t.1, sortByTs t.2))).filter
          (fun t => checkTopicFilters t.1 (some inc) (some exc) && !t.2.isEmpty)).map
          firstEntryProj := by
  unfold mergeMcapFiles
  dsimp only
  rw [if_pos h, pass2Of_all_transient inc exc latched start_ns _ results _ h]
  rw [addMsgProj_append, addMsgProj_append, pass1Of_addMsgProj]
  simp only [addMsgProj, List.filterMap_nil, List.nil_append]
  exact degenerate_addMsgProj inc exc _ _

/-- Witness for the amended C4 at a concrete transient-only input. -/
theorem c4_amended_degenerate_writes_witness :
    ([(⟨"transient_output/a.mcap",
        [⟨⟨"SA", "enc", "sa"⟩, ⟨"A", "json", []⟩, ⟨5, 5, "pay"⟩⟩], .ok⟩ : MFile)].all
      (fun f => isTransientPath f.path) = true)
    ∧ addMsgProj (mergeMcapFiles [⟨"transient_output/a.mcap",
        [⟨⟨"SA", "enc", "sa"⟩, ⟨"A", "json", []⟩, ⟨5, 5, "pay"⟩⟩], .ok⟩] [] [] 1 none).2
      = ((((pass1Of [⟨"transient_output/a.mcap",
            [⟨⟨"SA", "enc", "sa"⟩, ⟨"A", "json", []⟩, ⟨5, 5, "pay"⟩⟩], .ok⟩] [] []).1.2).map
            (fun t => (t.1, sortByTs t.2))).filter
          (fun t => checkTopicFilters t.1 (some []) (some []) && !t.2.isEmpty)).map
          firstEntryProj :=
  ⟨by decide,
   c4_amended_degenerate_writes [⟨"transient_output/a.mcap",
     [⟨⟨"SA", "enc", "sa"⟩, ⟨"A", "json", []⟩, ⟨5, 5, "pay"⟩⟩], .ok⟩] [] [] 1 none (by decide)⟩

/-- Folding over a mapped list is folding the composition. -/
theorem foldWithOps_map {σ α β : Type} (g : β → α) (f : σ → α → σ × List WriterOp) :
    ∀ (l : List β) (s : σ), foldWithOps f s (l.map g) = foldWithOps (fun s2 b => f s2 (g b)) s l := by
  intro l
  induction l with
  | nil => intro s; rfl
  | cons x xs ih =>
    intro s
    simp only [List.map_cons, foldWithOps]
    rw [ih]

/-- Two folds with pointwise equal step functions agree. -/
theorem foldWithOps_congr {σ α : Type} {f g : σ → α → σ × List WriterOp}
    (h : ∀ s a, f s a = g s a) : ∀ (l : List α) (s : σ), foldWithOps f s l = foldWithOps g s l := by
  intro l
  induction l with
  | nil => intro s; rfl
  | cons x xs ih =>
    intro s
    simp only [foldWithOps]
    rw [h, ih]

/-- Claim C7: per-file faults are fully absorbed: both merge and query compute
exactly what they compute on the fault-free view of their inputs, in which an
unreadable or empty file contributes nothing and a file whose decoding fails
mid-stream contributes exactly the records read before the failure; in
particular both operations always run to completion, whatever the files. -/
theorem c7_fault_absorption :
    (∀ (results : List MFile) (inc exc : List String) (latched : Int) (start_ns : Option Nat),
        mergeMcapFiles (results.map cleanFile) inc exc latched start_ns
          = mergeMcapFiles results inc exc latched start_ns)
    ∧ (∀ (s e : Nat) (inc exc : Option (List String)) (files : List QFile),
        queryMcapFiles s e inc exc (files.map cleanQFile)
          = queryMcapFiles s e inc exc files) := by
  constructor
  · intro results inc exc latched start_ns
    have hp1 : pass1Of (results.map cleanFile) inc exc = pass1Of results inc exc := by
      unfold pass1Of
      rw [foldWithOps_map]
      exact foldWithOps_congr (fun s b => rfl) results _
    have hp2 : ∀ tb reg, pass2Of inc exc latched start_ns tb reg (results.map cleanFile)
        = pass2Of inc exc latched start_ns tb reg results := by
      intro tb reg
      unfold pass2Of
      rw [foldWithOps_map]
      exact foldWithOps_congr (fun s b => rfl) results reg
    have hall : (results.map cleanFile).all (fun f => isTransientPath f.path)
        = results.all (fun f => isTransientPath f.path) := by
      rw [List.all_map]
      rfl
    unfold mergeMcapFiles
    dsimp only
    rw [hp1, hp2, hall]
  · intro s e inc exc files
    unfold queryMcapFiles
    rw [List.filterMap_map]
    rfl

/-- Counterexample to claim C8 as stated: an exclude-topics file that exists
but holds only blank lines does not make the merge command fail; it is
silently ignored. -/
theorem c8_counterexample :
    mergeCliTopics [] [] [] [TopicFileInput.present ["", "  "]] = .ok ([], [])
    ∧ ¬ (mergeCliTopics [] [] [] [TopicFileInput.present ["", "  "]]
          = .error CliError.noTopicsSpecified) := by
  refine ⟨rfl, fun h => ?_⟩
  rw [show mergeCliTopics [] [] [] [TopicFileInput.present ["", "  "]]
      = .ok ([], []) from rfl] at h
  exact Except.noConfusion h

/-- Claim C8 as amended: the "no topics specified" fatal error fires exactly
when include-topics files are supplied and all of them jointly parse to zero
topics; exclude-topics files that parse to zero topics are silently ignored
and the command proceeds. -/
theorem c8_amended_empty_topic_files :
    (∀ (inc exc : List String) (fls : List (List String)), fls ≠ [] →
        (∀ lines ∈ fls, readTopicsFromFile lines = []) →
        mergeCliTopics inc exc (fls.map TopicFileInput.present) []
          = .error CliError.noTopicsSpecified)
    ∧ (∀ (inc exc : List String) (fls : List (List String)),
        (∀ lines ∈ fls, readTopicsFromFile lines = []) →
        mergeCliTopics inc exc [] (fls.map TopicFileInput.present) = .ok (inc, exc)) := by
  have hgather : ∀ (fls : List (List String)), (∀ lines ∈ fls, readTopicsFromFile lines = []) →
      gatherFileTopics (fls.map TopicFileInput.present) = .ok [] := by
    intro fls
    induction fls with
    | nil => intro _; rfl
    | cons x xs ih =>
      intro h
      simp only [List.map_cons, gatherFileTopics]
      rw [ih (fun l hl => h l (List.mem_cons_of_mem x hl)), h x (List.mem_cons_self x xs)]
      rfl
  constructor
  · intro inc exc fls hne h
    unfold mergeCliTopics
    have hmapne : (fls.map TopicFileInput.present).isEmpty = false := by
      cases fls with
      | nil => exact absurd rfl hne
      | cons a l => rfl
    rw [hmapne]
    simp only [Bool.false_eq_true, if_false]
    rw [hgather fls h]
    rfl
  · intro inc exc fls h
    unfold mergeCliTopics
    rw [hgather fls h]
    cases fls with
    | nil => rfl
    | cons a l => simp

/-- Witness for the amended C8 at concrete inputs: a single all-blank include
file aborts with the no-topics error, a single all-blank exclude file is
ignored. -/
theorem c8_amended_empty_topic_files_witness :
    ([["", "  "]] ≠ ([] : List (List String)))
    ∧ (∀ lines ∈ [["", "  "]], readTopicsFromFile lines = [])
    ∧ mergeCliTopics ["t"] [] ([["", "  "]].map TopicFileInput.present) []
        = .error CliError.noTopicsSpecified
    ∧ mergeCliTopics ["t"] ["u"] [] ([["", "  "]].map TopicFileInput.present)
        = .ok (["t"], ["u"]) :=
  ⟨by decide, by decide,
   c8_amended_empty_topic_files.1 ["t"] [] [["", "  "]] (by decide) (by decide),
   c8_amended_empty_topic_files.2 ["t"] ["u"] [["", "  "]] (by decide)⟩

/-- A topic is in the scan state after the per-file loop iff it was there
before or some scanned pair carries it inside the window. -/
theorem qScan_topics (s e : Nat) :
    ∀ (l : List (String × Nat)) (st : QScan) (t : String),
      t ∈ (l.foldl (qScanStep s e) st).matching_topics ↔
        t ∈ st.matching_topics ∨ ∃ ts, (t, ts) ∈ l ∧ s ≤ ts ∧ ts ≤ e := by
  intro l
  induction l with
  | nil => intro st t; simp
  | cons p l ih =>
    intro st t
    rw [List.foldl_cons, ih]
    by_cases hw : (s ≤ p.2 && p.2 ≤ e) = true
    · rw [Bool.and_eq_true, decide_eq_true_eq, decide_eq_true_eq] at hw
      unfold qScanStep
      rw [if_pos (by simp [hw.1, hw.2])]
      dsimp only
      by_cases hc : st.matching_topics.contains p.1 = true
      · rw [if_pos hc]
        have hmem : p.1 ∈ st.matching_topics := List.elem_iff.mp hc
        constructor
        · rintro (h1 | ⟨ts, hts, h2, h3⟩)
          · exact Or.inl h1
          · exact Or.inr ⟨ts, List.mem_cons_of_mem p hts, h2, h3⟩
        · rintro (h1 | ⟨ts, hts, h2, h3⟩)
          · exact Or.inl h1
          · rcases List.mem_cons.mp hts with heq | hin
            · rcases Prod.mk.injEq .. ▸ heq with ⟨rfl, rfl⟩
              exact Or.inl hmem
            · exact Or.inr ⟨ts, hin, h2, h3⟩
      · rw [if_neg hc]
        constructor
        · rintro (h1 | ⟨ts, hts, h2, h3⟩)
          · rcases List.mem_append.mp h1 with h1a | h1b
            · exact Or.inl h1a
            · rcases List.mem_singleton.mp h1b with rfl
              exact Or.inr ⟨p.2, List.mem_cons_self _ _, hw.1, hw.2⟩
          · exact Or.inr ⟨ts, List.mem_cons_of_mem p hts, h2, h3⟩
        · rintro (h1 | ⟨ts, hts, h2, h3⟩)
          · exact Or.inl (List.mem_append.mpr (Or.inl h1))
          · rcases List.mem_cons.mp hts with heq | hin
            · rcases Prod.mk.injEq .. ▸ heq with ⟨rfl, rfl⟩
              exact Or.inl (List.mem_append.mpr (Or.inr (List.mem_singleton.mpr rfl)))
            · exact Or.inr ⟨ts, hin, h2, h3⟩
    · unfold qScanStep
      rw [if_neg hw]
      rw [Bool.and_eq_true, decide_eq_true_eq, decide_eq_true_eq] at hw
      constructor
      · rintro (h1 | ⟨ts, hts, h2, h3⟩)
        · exact Or.inl h1
        · exact Or.inr ⟨ts, List.mem_cons_of_mem p hts, h2, h3⟩
      · rintro (h1 | ⟨ts, hts, h2, h3⟩)
        · exact Or.inl h1
        · rcases List.mem_cons.mp hts with heq | hin
          · rcases Prod.mk.injEq .. ▸ heq with ⟨rfl, rfl⟩
            exact absurd ⟨h2, h3⟩ hw
          · exact Or.inr ⟨ts, hin, h2, h3⟩

/-- The scan step's running-minimum component in closed form. -/
theorem qScanStep_start_eq (s e : Nat) (st : QScan) (p : String × Nat) :
    (qScanStep s e st p).file_start_time
      = if (s ≤ p.2 && p.2 ≤ e) = true then optMinUpd st.file_start_time p.2
        else st.file_start_time := by
  unfold qScanStep
  by_cases hw : (s ≤ p.2 && p.2 ≤ e) = true
  · rw [if_pos hw, if_pos hw]
    dsimp only
    cases st.file_start_time with
    | none => simp [optMinUpd]
    | some m =>
      simp only [optMinUpd, Option.getD_some]
      rcases Nat.lt_or_ge p.2 m with h | h
      · rw [if_pos h, Nat.min_eq_right (Nat.le_of_lt h)]
      · rw [if_neg (Nat.not_lt.mpr h), Nat.min_eq_left h]
  · rw [if_neg hw, if_neg hw]

/-- The scan step's running-maximum component in closed form. -/
theorem qScanStep_end_eq (s e : Nat) (st : QScan) (p : String × Nat) :
    (qScanStep s e st p).file_end_time
      = if (s ≤ p.2 && p.2 ≤ e) = true then optMaxUpd st.file_end_time p.2
        else st.file_end_time := by
  unfold qScanStep
  by_cases hw : (s ≤ p.2 && p.2 ≤ e) = true
  · rw [if_pos hw, if_pos hw]
    dsimp only
    cases st.file_end_time with
    | none => simp [optMaxUpd]
    | some m =>
      simp only [optMaxUpd, Option.getD_some]
      rcases Nat.lt_or_ge m p.2 with h | h
      · rw [if_pos h, Nat.max_eq_right (Nat.le_of_lt h)]
      · rw [if_neg (Nat.not_lt.mpr h), Nat.max_eq_left h]
  · rw [if_neg hw, if_neg hw]

/-- After the per-file loop, the running minimum is the fold of the in-window
timestamps. -/
theorem qScan_start_eq (s e : Nat) :
    ∀ (l : List (String × Nat)) (st : QScan),
      (l.foldl (qScanStep s e) st).file_start_time
        = ((l.filter (fun p => s ≤ p.2 && p.2 ≤ e)).map Prod.snd).foldl optMinUpd
            st.file_start_time := by
  intro l
  induction l with
  | nil => intro st; rfl
  | cons p l ih =>
    intro st
    rw [List.foldl_cons, List.filter_cons, ih]
    by_cases hw : (s ≤ p.2 && p.2 ≤ e) = true
    · rw [if_pos hw, List.map_cons, List.foldl_cons, qScanStep_start_eq, if_pos hw]
    · rw [if_neg hw, qScanStep_start_eq, if_neg hw]

/-- After the per-file loop, the running maximum is the fold of the in-window
timestamps. -/
theorem qScan_end_eq (s e : Nat) :
    ∀ (l : List (String × Nat)) (st : QScan),
      (l.foldl (qScanStep s e) st).file_end_time
        = ((l.filter (fun p => s ≤ p.2 && p.2 ≤ e)).map Prod.snd).foldl optMaxUpd
            st.file_end_time := by
  intro l
  induction l with
  | nil => intro st; rfl
  | cons p l ih =>
    intro st
    rw [List.foldl_cons, List.filter_cons, ih]
    by_cases hw : (s ≤ p.2 && p.2 ≤ e) = true
    · rw [if_pos hw, List.map_cons, List.foldl_cons, qScanStep_end_eq, if_pos hw]
    · rw [if_neg hw, qScanStep_end_eq, if_neg hw]

/-- The minimum fold from a some-accumulator stays some. -/
theorem foldl_optMinUpd_isSome : ∀ (l : List Nat) (x : Nat),
    ∃ m, l.foldl optMinUpd (some x) = some m := by
  intro l
  induction l with
  | nil => intro x; exact ⟨x, rfl⟩
  | cons v l ih =>
    intro x
    rw [List.foldl_cons]
    exact ih (min x v)

/-- What the minimum fold computes: a value of the list (or the seed), below
every list value and the seed. -/
theorem foldl_optMinUpd_spec : ∀ (l : List Nat) (o : Option Nat) (m : Nat),
    l.foldl optMinUpd o = some m →
      (m ∈ l ∨ o = some m) ∧ (∀ v ∈ l, m ≤ v) ∧ (∀ a, o = some a → m ≤ a) := by
  intro l
  induction l with
  | nil =>
    intro o m h
    simp only [List.foldl_nil] at h
    refine ⟨Or.inr h, by simp, fun a ha => ?_⟩
    rw [ha] at h
    have := Option.some.inj h
    omega
  | cons v l ih =>
    intro o m h
    rw [List.foldl_cons] at h
    rcases ih (optMinUpd o v) m h with ⟨h1, h2, h3⟩
    have h4 : m ≤ min (o.getD v) v := h3 _ rfl
    refine ⟨?_, ?_, ?_⟩
    · rcases h1 with hm | he
      · exact Or.inl (List.mem_cons_of_mem v hm)
      · unfold optMinUpd at he
        cases o with
        | none =>
          simp only [Option.getD_none] at he
          rcases Option.some.injEq .. ▸ he with rfl
          exact Or.inl (by simp)
        | some a =>
          simp only [Option.getD_some] at he
          rcases Option.some.injEq .. ▸ he with rfl
          rcases Nat.le_total a v with hav | hva
          · exact Or.inr (by rw [Nat.min_eq_left hav])
          · exact Or.inl (by rw [Nat.min_eq_right hva]; simp)
    · intro w hw
      rcases List.mem_cons.mp hw with rfl | hwl
      · exact Nat.le_trans h4 (Nat.min_le_right _ _)
      · exact h2 w hwl
    · intro a ha
      subst ha
      simpa using Nat.le_trans h4 (Nat.min_le_left _ _)

/-- The maximum fold from a some-accumulator stays some. -/
theorem foldl_optMaxUpd_isSome : ∀ (l : List Nat) (x : Nat),
    ∃ m, l.foldl optMaxUpd (some x) = some m := by
  intro l
  induction l with
  | nil => intro x; exact ⟨x, rfl⟩
  | cons v l ih =>
    intro x
    rw [List.foldl_cons]
    exact ih (max x v)

/-- What the maximum fold computes: a value of the list (or the seed), above
every list value and the seed. -/
theorem foldl_optMaxUpd_spec : ∀ (l : List Nat) (o : Option Nat) (m : Nat),
    l.foldl optMaxUpd o = some m →
      (m ∈ l ∨ o = some m) ∧ (∀ v ∈ l, v ≤ m) ∧ (∀ a, o = some a → a ≤ m) := by
  intro l
  induction l with
  | nil =>
    intro o m h
    simp only [List.foldl_nil] at h
    refine ⟨Or.inr h, by simp, fun a ha => ?_⟩
    rw [ha] at h
    have := Option.some.inj h
    omega
  | cons v l ih =>
    intro o m h
    rw [List.foldl_cons] at h
    rcases ih (optMaxUpd o v) m h with ⟨h1, h2, h3⟩
    have h4 : max (o.getD v) v ≤ m := h3 _ rfl
    refine ⟨?_, ?_, ?_⟩
    · rcases h1 with hm | he
      · exact Or.inl (List.mem_cons_of_mem v hm)
      · unfold optMaxUpd at he
        cases o with
        | none =>
          simp only [Option.getD_none] at he
          rcases Option.some.injEq .. ▸ he with rfl
          exact Or.inl (by simp)
        | some a =>
          simp only [Option.getD_some] at he
          rcases Option.some.injEq .. ▸ he with rfl
          rcases Nat.le_total a v with hav | hva
          · exact Or.inl (by rw [Nat.max_eq_right hav]; simp)
          · exact Or.inr (by rw [Nat.max_eq_left hva])
    · intro w hw
      rcases List.mem_cons.mp hw with rfl | hwl
      · exact Nat.le_trans (Nat.le_max_right _ _) h4
      · exact h2 w hwl
    · intro a ha
      subst ha
      simpa using Nat.le_trans (Nat.le_max_left _ _) h4

/-- The Python truthiness pre-pass on the topic sets does not change the
filter's verdict. -/
theorem checkTopicFilters_truthyOpt (t : String) (o1 o2 : Option (List String)) :
    checkTopicFilters t (truthyOpt o1) (truthyOpt o2) = checkTopicFilters t o1 o2 := by
  unfold checkTopicFilters optNonempty truthyOpt
  cases o1 with
  | none =>
    cases o2 with
    | none => rfl
    | some l2 =>
      by_cases h2 : l2.isEmpty = true <;> simp [h2]
  | some l1 =>
    cases o2 with
    | none =>
      by_cases h1 : l1.isEmpty = true <;> simp [h1]
    | some l2 =>
      by_cases h1 : l1.isEmpty = true <;> by_cases h2 : l2.isEmpty = true <;>
        simp [h1, h2]

/-- A non-empty minimum fold from an empty accumulator yields a value. -/
theorem foldl_optMinUpd_ne_nil (l : List Nat) (h : l ≠ []) :
    ∃ m, l.foldl optMinUpd none = some m := by
  cases l with
  | nil => exact absurd rfl h
  | cons v rest =>
    rw [List.foldl_cons]
    exact foldl_optMinUpd_isSome rest (min v v)

/-- A non-empty maximum fold from an empty accumulator yields a value. -/
theorem foldl_optMaxUpd_ne_nil (l : List Nat) (h : l ≠ []) :
    ∃ m, l.foldl optMaxUpd none = some m := by
  cases l with
  | nil => exact absurd rfl h
  | cons v rest =>
    rw [List.foldl_cons]
    exact foldl_optMaxUpd_isSome rest (max v v)

/-- Claim C5: a file yields a QueryResult (and then appears in the query
output) iff it holds a record whose topic the filter admits and whose
timestamp lies in the inclusive window; the result's matching topics are
exactly the admitted topics with such a record, and its start/end times are
the minimum/maximum matched timestamps, so start_time ≤ end_time. -/
theorem c5_query_characterization (s e : Nat) (inc exc : Option (List String)) (f : QFile)
    (files : List QFile) (hf : f ∈ files) :
    ((queryFile s e (truthyOpt inc) (truthyOpt exc) f).isSome = true ↔
      ∃ p ∈ qReadRecords f, checkTopicFilters p.1 inc exc = true ∧ s ≤ p.2 ∧ p.2 ≤ e)
    ∧ (∀ res, queryFile s e (truthyOpt inc) (truthyOpt exc) f = some res →
        res ∈ queryMcapFiles s e inc exc files
        ∧ res.file_path = f.path
        ∧ (∀ t, t ∈ res.matching_topics ↔
            ∃ ts, (t, ts) ∈ qReadRecords f ∧ checkTopicFilters t inc exc = true
              ∧ s ≤ ts ∧ ts ≤ e)
        ∧ (∃ p ∈ qReadRecords f, checkTopicFilters p.1 inc exc = true ∧ s ≤ p.2 ∧ p.2 ≤ e
            ∧ p.2 = res.start_time)
        ∧ (∃ p ∈ qReadRecords f, checkTopicFilters p.1 inc exc = true ∧ s ≤ p.2 ∧ p.2 ≤ e
            ∧ p.2 = res.end_time)
        ∧ (∀ p ∈ qReadRecords f, checkTopicFilters p.1 inc exc = true → s ≤ p.2 → p.2 ≤ e →
            res.start_time ≤ p.2 ∧ p.2 ≤ res.end_time)
        ∧ res.start_time ≤ res.end_time) := by
  have hmeml : ∀ (p : String × Nat),
      p ∈ processMcapFile (truthyOpt inc) (truthyOpt exc) f ↔
        (p ∈ qReadRecords f ∧ checkTopicFilters p.1 inc exc = true) := by
    intro p
    unfold processMcapFile
    rw [List.mem_filter, checkTopicFilters_truthyOpt]
  have htop : ∀ t, t ∈ ((processMcapFile (truthyOpt inc) (truthyOpt exc) f).foldl
      (qScanStep s e) ⟨[], none, none⟩).matching_topics ↔
      ∃ ts, (t, ts) ∈ qReadRecords f ∧ checkTopicFilters t inc exc = true
        ∧ s ≤ ts ∧ ts ≤ e := by
    intro t
    rw [qScan_topics]
    simp only [List.not_mem_nil, false_or]
    constructor
    · rintro ⟨ts, hts, h1, h2⟩
      rcases (hmeml (t, ts)).mp hts with ⟨hrec, hadm⟩
      exact ⟨ts, hrec, hadm, h1, h2⟩
    · rintro ⟨ts, hrec, hadm, h1, h2⟩
      exact ⟨ts, (hmeml (t, ts)).mpr ⟨hrec, hadm⟩, h1, h2⟩
  have hwinmem : ∀ (p : String × Nat),
      p ∈ (processMcapFile (truthyOpt inc) (truthyOpt exc) f).filter
          (fun p => s ≤ p.2 && p.2 ≤ e) ↔
        (p ∈ qReadRecords f ∧ checkTopicFilters p.1 inc exc = true ∧ s ≤ p.2 ∧ p.2 ≤ e) := by
    intro p
    rw [List.mem_filter, hmeml, Bool.and_eq_true, decide_eq_true_eq, decide_eq_true_eq]
    tauto
  constructor
  · unfold queryFile
    dsimp only
    by_cases hemp : ((processMcapFile (truthyOpt inc) (truthyOpt exc) f).foldl
        (qScanStep s e) ⟨[], none, none⟩).matching_topics.isEmpty = true
    · rw [if_pos hemp]
      simp only [Option.isSome_none, Bool.false_eq_true, false_iff]
      rintro ⟨p, hrec, hadm, h1, h2⟩
      have := (htop p.1).mpr ⟨p.2, hrec, hadm, h1, h2⟩
      rw [List.isEmpty_iff.mp hemp] at this
      exact List.not_mem_nil p.1 this
    · rw [if_neg hemp]
      simp only [Option.isSome_some, true_iff]
      have hne : ((processMcapFile (truthyOpt inc) (truthyOpt exc) f).foldl
          (qScanStep s e) ⟨[], none, none⟩).matching_topics ≠ [] := by
        intro hcon
        exact hemp (List.isEmpty_iff.mpr hcon)
      rcases List.exists_mem_of_ne_nil _ hne with ⟨t, ht⟩
      rcases (htop t).mp ht with ⟨ts, hrec, hadm, h1, h2⟩
      exact ⟨(t, ts), hrec, hadm, h1, h2⟩
  · intro res hres0
    have hres := hres0
    unfold queryFile at hres
    dsimp only at hres
    by_cases hemp : ((processMcapFile (truthyOpt inc) (truthyOpt exc) f).foldl
        (qScanStep s e) ⟨[], none, none⟩).matching_topics.isEmpty = true
    · rw [if_pos hemp] at hres
      exact absurd hres (by simp)
    · rw [if_neg hemp] at hres
      have hr := (Option.some.inj hres).symm
      have hne : ((processMcapFile (truthyOpt inc) (truthyOpt exc) f).foldl
          (qScanStep s e) ⟨[], none, none⟩).matching_topics ≠ [] := by
        intro hcon
        exact hemp (List.isEmpty_iff.mpr hcon)
      have hmatchedne : ((processMcapFile (truthyOpt inc) (truthyOpt exc) f).filter
          (fun p => s ≤ p.2 && p.2 ≤ e)).map Prod.snd ≠ [] := by
        rcases List.exists_mem_of_ne_nil _ hne with ⟨t, ht⟩
        rcases (htop t).mp ht with ⟨ts, hrec, hadm, h1, h2⟩
        have hpm : (t, ts) ∈ (processMcapFile (truthyOpt inc) (truthyOpt exc) f).filter
            (fun p => s ≤ p.2 && p.2 ≤ e) := (hwinmem (t, ts)).mpr ⟨hrec, hadm, h1, h2⟩
        exact List.ne_nil_of_mem (List.mem_map_of_mem Prod.snd hpm)
      rcases foldl_optMinUpd_ne_nil _ hmatchedne with ⟨mlo, hmlo⟩
      rcases foldl_optMaxUpd_ne_nil _ hmatchedne with ⟨mhi, hmhi⟩
      have hstime : res.start_time = mlo := by
        rw [hr]
        dsimp only
        rw [qScan_start_eq]
        dsimp only
        rw [hmlo]
        rfl
      have hetime : res.end_time = mhi := by
        rw [hr]
        dsimp only
        rw [qScan_end_eq]
        dsimp only
        rw [hmhi]
        rfl
      rcases foldl_optMinUpd_spec _ _ _ hmlo with ⟨hlo1, hlo2, _⟩
      rcases foldl_optMaxUpd_spec _ _ _ hmhi with ⟨hhi1, hhi2, _⟩
      refine ⟨?_, ?_, ?_, ?_, ?_, ?_, ?_⟩
      · unfold queryMcapFiles
        exact List.mem_filterMap.mpr ⟨f, hf, hres0⟩
      · rw [hr]
      · intro t
        rw [hr]
        exact htop t
      · rcases hlo1 with hmem | hcon
        · rcases List.mem_map.mp hmem with ⟨p, hp, hp2⟩
          rcases (hwinmem p).mp hp with ⟨hrec, hadm, h1, h2⟩
          exact ⟨p, hrec, hadm, h1, h2, by rw [hp2, hstime]⟩
        · exact absurd hcon (by simp)
      · rcases hhi1 with hmem | hcon
        · rcases List.mem_map.mp hmem with ⟨p, hp, hp2⟩
          rcases (hwinmem p).mp hp with ⟨hrec, hadm, h1, h2⟩
          exact ⟨p, hrec, hadm, h1, h2, by rw [hp2, hetime]⟩
        · exact absurd hcon (by simp)
      · intro p hrec hadm h1 h2
        have hpm : p ∈ (processMcapFile (truthyOpt inc) (truthyOpt exc) f).filter
            (fun p => s ≤ p.2 && p.2 ≤ e) := (hwinmem p).mpr ⟨hrec, hadm, h1, h2⟩
        have hsnd : p.2 ∈ ((processMcapFile (truthyOpt inc) (truthyOpt exc) f).filter
            (fun p => s ≤ p.2 && p.2 ≤ e)).map Prod.snd := List.mem_map_of_mem Prod.snd hpm
        rw [hstime, hetime]
        exact ⟨hlo2 p.2 hsnd, hhi2 p.2 hsnd⟩
      · rcases hlo1 with hmem | hcon
        · rcases List.mem_map.mp hmem with ⟨p, hp, hp2⟩
          rw [hstime, hetime, ← hp2]
          exact hhi2 p.2 (List.mem_map_of_mem Prod.snd hp)
        · exact absurd hcon (by simp)

/-- Witness for C5 at a concrete file: one record on topic t at time 7 inside
the window [5, 10]. -/
theorem c5_query_characterization_witness :
    ((⟨"a.mcap", [("t", 7)], .ok⟩ : QFile) ∈ [(⟨"a.mcap", [("t", 7)], .ok⟩ : QFile)])
    ∧ ((queryFile 5 10 (truthyOpt none) (truthyOpt none) ⟨"a.mcap", [("t", 7)], .ok⟩).isSome
          = true ↔
        ∃ p ∈ qReadRecords ⟨"a.mcap", [("t", 7)], .ok⟩,
          checkTopicFilters p.1 none none = true ∧ 5 ≤ p.2 ∧ p.2 ≤ 10) :=
  ⟨by decide,
   (c5_query_characterization 5 10 none none ⟨"a.mcap", [("t", 7)], .ok⟩
     [⟨"a.mcap", [("t", 7)], .ok⟩] (by decide)).1⟩

end McapManager
